import Mathlib

/-!
Verification of the topology-attribute core (MDAnalysis/core/topologyattrs.py).

Shallow embedding: numpy arrays become Lean lists, numpy fancy indexing and
assignment become explicit bounds-checked operations, Python exceptions become
an explicit error type, and the class hierarchy becomes one Lean definition per
resolved method (inherited methods are defined by delegation to the parent
definition).  Floating point mass/charge values are modelled as exact rationals;
the claims under study concern only the structure of the aggregation.
-/

set_option linter.unusedVariables false

/-- The exception kinds raised by the code: `NoDataError`, `NotImplementedError`,
and the lower-level `IndexError` / `TypeError` / `ValueError` from numpy and
Python indexing. -/
inductive Err where
  | noData
  | notImplemented
  | indexError
  | typeError
  | valueError
  deriving DecidableEq

instance {ε α : Type} [DecidableEq ε] [DecidableEq α] : DecidableEq (Except ε α) :=
  fun a b =>
    match a, b with
    | .ok x, .ok y =>
      if h : x = y then .isTrue (by rw [h]) else .isFalse (fun c => h (Except.ok.inj c))
    | .error x, .error y =>
      if h : x = y then .isTrue (by rw [h]) else .isFalse (fun c => h (Except.error.inj c))
    | .ok _, .error _ => .isFalse (fun c => Except.noConfusion c)
    | .error _, .ok _ => .isFalse (fun c => Except.noConfusion c)

/-- Numpy fancy read `values[ix]` on an array: one element per index, raising
`IndexError` on any out-of-range index. -/
def npGet {V : Type} (values : List V) : List Nat → Except Err (List V)
  | [] => .ok []
  | i :: rest =>
    match values.get? i with
    | none => .error .indexError
    | some v =>
      match npGet values rest with
      | .error e => .error e
      | .ok vs => .ok (v :: vs)

/-- The element-wise writes performed by numpy fancy assignment, in order
(for a repeated index the last write wins, as in numpy). -/
def npSetRaw {V : Type} (values : List V) (ps : List (Nat × V)) : List V :=
  ps.foldl (fun vs p => vs.set p.1 p.2) values

/-- Numpy fancy assignment `values[ix] = nv`: shape mismatch raises
`ValueError`, an out-of-range index raises `IndexError`, otherwise the
element-wise writes are performed. -/
def npSet {V : Type} (values : List V) (ix : List Nat) (nv : List V) : Except Err (List V) :=
  if ix.length = nv.length then
    if ∀ i ∈ ix, i < values.length then .ok (npSetRaw values (ix.zip nv))
    else .error .indexError
  else .error .valueError

/-- The index computed by `np.where(values == item)[0][0]`: the first position
of `values` holding `item`, when one exists. -/
def firstMatch (values : List Int) (item : Int) : Option Nat :=
  match values with
  | [] => none
  | v :: vs => if v = item then some 0 else (firstMatch vs item).map (· + 1)

/-- Modelled from the spec: the external Translation Table (`top.tt`) is not
part of the source under verification; following the spec it is the structural
atom-to-residue and residue-to-segment ownership mapping, from which the bulk
conversion operations below are derived.  `AR` maps each atom index to the
index of its owning residue; `RS` maps each residue index to the index of its
owning segment. -/
structure TransTable where
  AR : List Nat
  RS : List Nat
  deriving DecidableEq

/-- Atom indices of the atoms owned by residue `r`, in atom-index order. -/
def TransTable.resMembers (t : TransTable) (r : Nat) : List Nat :=
  (List.range t.AR.length).filter (fun a => t.AR.getD a 0 == r)

/-- Atom indices of the atoms owned by segment `s`, in atom-index order. -/
def TransTable.segMembers (t : TransTable) (s : Nat) : List Nat :=
  (List.range t.AR.length).filter (fun a => t.RS.getD (t.AR.getD a 0) 0 == s)

/-- Residue indices of the residues owned by segment `s`. -/
def TransTable.segResidues (t : TransTable) (s : Nat) : List Nat :=
  (List.range t.RS.length).filter (fun r => t.RS.getD r 0 == s)

/-- Modelled from the spec: `atoms_to_residues`, one residue index per atom. -/
def TransTable.a2r (t : TransTable) (aix : List Nat) : List Nat :=
  aix.map (fun a => t.AR.getD a 0)

/-- Modelled from the spec: `atoms_to_segments`, one segment index per atom. -/
def TransTable.a2s (t : TransTable) (aix : List Nat) : List Nat :=
  aix.map (fun a => t.RS.getD (t.AR.getD a 0) 0)

/-- Modelled from the spec: `residues_to_segments`, one segment index per residue. -/
def TransTable.r2s (t : TransTable) (rix : List Nat) : List Nat :=
  rix.map (fun r => t.RS.getD r 0)

/-- Modelled from the spec: ragged grouping, one row of member-atom indices per
input residue (`r2a_2d`). -/
def TransTable.r2a_2d (t : TransTable) (rix : List Nat) : List (List Nat) :=
  rix.map t.resMembers

/-- Modelled from the spec: flat member-atom indices of a residue set (`r2a_1d`). -/
def TransTable.r2a_1d (t : TransTable) (rix : List Nat) : List Nat :=
  (t.r2a_2d rix).flatten

/-- Modelled from the spec: ragged grouping, one row of member-atom indices per
input segment (`s2a_2d`). -/
def TransTable.s2a_2d (t : TransTable) (six : List Nat) : List (List Nat) :=
  six.map t.segMembers

/-- Modelled from the spec: flat member-atom indices of a segment set (`s2a_1d`). -/
def TransTable.s2a_1d (t : TransTable) (six : List Nat) : List Nat :=
  (t.s2a_2d six).flatten

/-- Modelled from the spec: flat member-residue indices of a segment set (`s2r_1d`). -/
def TransTable.s2r_1d (t : TransTable) (six : List Nat) : List Nat :=
  (six.map t.segResidues).flatten

/-- Modelled from the spec: `move_atom(atom_indices, new_residue_indices)`
reassigns the structural ownership of each listed atom to the corresponding
residue. -/
def TransTable.move_atom (t : TransTable) (aix : List Nat) (rix : List Nat) : TransTable :=
  ⟨npSetRaw t.AR (aix.zip rix), t.RS⟩

/-- A group object: a `level` tag (a raw string in the source, compared against
the literals atom / residue / segment) and an index array at that level. -/
structure LevelGroup where
  level : String
  ix : List Nat

/-! ### TopologyAttr base class -/

/-- `TopologyAttr.__getitem__`: dispatch on `group.level`; the three
level-specific handlers are the overridable methods of the attribute.  A level
tag matching none of the three string literals falls off the end of the
if/elif chain, so Python returns `None`. -/
def TopologyAttr.getitem {α : Type} (gA gR gS : LevelGroup → α) (g : LevelGroup) : Option α :=
  if g.level = "atom" then some (gA g)
  else if g.level = "residue" then some (gR g)
  else if g.level = "segment" then some (gS g)
  else none

/-- `TopologyAttr.__setitem__`: same dispatch as `__getitem__` for the write
path; an unknown level tag likewise returns `None` and runs no handler. -/
def TopologyAttr.setitem {σ α : Type} (sA sR sS : LevelGroup → σ → α) (g : LevelGroup) (v : σ) :
    Option α :=
  if g.level = "atom" then some (sA g v)
  else if g.level = "residue" then some (sR g v)
  else if g.level = "segment" then some (sS g v)
  else none

/-- Default `TopologyAttr.get_atoms`: raises `NoDataError`. -/
def TopologyAttr.get_atoms {V : Type} (values : List V) (t : TransTable) (agix : List Nat) :
    Except Err (List V) :=
  .error .noData

/-- Default `TopologyAttr.set_atoms`: raises `NotImplementedError`. -/
def TopologyAttr.set_atoms {V : Type} (values : List V) (t : TransTable) (agix : List Nat)
    (nv : List V) : Except Err (List V) :=
  .error .notImplemented

/-- Default `TopologyAttr.get_residues`: raises `NoDataError`. -/
def TopologyAttr.get_residues {V : Type} (values : List V) (t : TransTable) (rgix : List Nat) :
    Except Err (List V) :=
  .error .noData

/-- Default `TopologyAttr.set_residues`: raises `NotImplementedError`. -/
def TopologyAttr.set_residues {V : Type} (values : List V) (t : TransTable) (rgix : List Nat)
    (nv : List V) : Except Err (List V) :=
  .error .notImplemented

/-- Default `TopologyAttr.get_segments`: raises `NoDataError`. -/
def TopologyAttr.get_segments {V : Type} (values : List V) (t : TransTable) (sgix : List Nat) :
    Except Err (List V) :=
  .error .noData

/-- Default `TopologyAttr.set_segments`: raises `NotImplementedError`. -/
def TopologyAttr.set_segments {V : Type} (values : List V) (t : TransTable) (sgix : List Nat)
    (nv : List V) : Except Err (List V) :=
  .error .notImplemented

/-! ### AtomAttr family -/

/-- `AtomAttr.get_atoms`: `self.values[ag._ix]`. -/
def AtomAttr.get_atoms {V : Type} (values : List V) (t : TransTable) (agix : List Nat) :
    Except Err (List V) :=
  npGet values agix

/-- `AtomAttr.set_atoms`: `self.values[ag._ix] = values`. -/
def AtomAttr.set_atoms {V : Type} (values : List V) (t : TransTable) (agix : List Nat)
    (nv : List V) : Except Err (List V) :=
  npSet values agix nv

/-- `AtomAttr.get_residues`: flatten the residue group to member-atom indices
through the Translation Table, then index `values`. -/
def AtomAttr.get_residues {V : Type} (values : List V) (t : TransTable) (rgix : List Nat) :
    Except Err (List V) :=
  npGet values (t.r2a_1d rgix)

/-- `AtomAttr.get_segments`: flatten the segment group to member-atom indices
through the Translation Table, then index `values`. -/
def AtomAttr.get_segments {V : Type} (values : List V) (t : TransTable) (sgix : List Nat) :
    Except Err (List V) :=
  npGet values (t.s2a_1d sgix)

/-- `AtomAttr` does not override `set_residues`: inherited base default. -/
def AtomAttr.set_residues {V : Type} (values : List V) (t : TransTable) (rgix : List Nat)
    (nv : List V) : Except Err (List V) :=
  TopologyAttr.set_residues values t rgix nv

/-- `AtomAttr` does not override `set_segments`: inherited base default. -/
def AtomAttr.set_segments {V : Type} (values : List V) (t : TransTable) (sgix : List Nat)
    (nv : List V) : Except Err (List V) :=
  TopologyAttr.set_segments values t sgix nv

/-- `Atomnames` overrides nothing: `get_segments` resolves to
`AtomAttr.get_segments`.  Name values are strings. -/
def Atomnames.get_segments (values : List String) (t : TransTable) (sgix : List Nat) :
    Except Err (List String) :=
  AtomAttr.get_segments values t sgix

/-- The per-row loop shared by the `Masses`/`Charges` aggregating readers:
`for i, row in enumerate(rows): out[i] = values[row].sum()`. -/
def sumRows (values : List Rat) : List (List Nat) → Except Err (List Rat)
  | [] => .ok []
  | row :: rest =>
    match npGet values row with
    | .error e => .error e
    | .ok vs =>
      match sumRows values rest with
      | .error e => .error e
      | .ok sums => .ok (vs.sum :: sums)

/-- `Masses.get_residues`: one scalar per residue of the group, the sum of the
member-atom masses, via the ragged grouping `r2a_2d`. -/
def Masses.get_residues (values : List Rat) (t : TransTable) (rgix : List Nat) :
    Except Err (List Rat) :=
  sumRows values (t.r2a_2d rgix)

/-- `Masses.get_segments`: one scalar per segment of the group, the sum of the
member-atom masses, via the ragged grouping `s2a_2d`. -/
def Masses.get_segments (values : List Rat) (t : TransTable) (sgix : List Nat) :
    Except Err (List Rat) :=
  sumRows values (t.s2a_2d sgix)

/-- `Charges.get_residues`: same loop as `Masses.get_residues` over the charge
array. -/
def Charges.get_residues (values : List Rat) (t : TransTable) (rgix : List Nat) :
    Except Err (List Rat) :=
  sumRows values (t.r2a_2d rgix)

/-- `Charges.get_segments`: same loop as `Masses.get_segments` over the charge
array. -/
def Charges.get_segments (values : List Rat) (t : TransTable) (sgix : List Nat) :
    Except Err (List Rat) :=
  sumRows values (t.s2a_2d sgix)

/-! ### ResidueAttr family -/

/-- `ResidueAttr.get_atoms`: one residue index per atom via `a2r`, then index. -/
def ResidueAttr.get_atoms {V : Type} (values : List V) (t : TransTable) (agix : List Nat) :
    Except Err (List V) :=
  npGet values (t.a2r agix)

/-- `ResidueAttr.get_residues`: direct index at the native level. -/
def ResidueAttr.get_residues {V : Type} (values : List V) (t : TransTable) (rgix : List Nat) :
    Except Err (List V) :=
  npGet values rgix

/-- `ResidueAttr.set_residues`: direct fancy assignment at the native level. -/
def ResidueAttr.set_residues {V : Type} (values : List V) (t : TransTable) (rgix : List Nat)
    (nv : List V) : Except Err (List V) :=
  npSet values rgix nv

/-- `ResidueAttr.get_segments`: flatten to member-residue indices, then index. -/
def ResidueAttr.get_segments {V : Type} (values : List V) (t : TransTable) (sgix : List Nat) :
    Except Err (List V) :=
  npGet values (t.s2r_1d sgix)

/-- `ResidueAttr` does not override `set_atoms`: inherited base default
(`Resids` overrides it separately). -/
def ResidueAttr.set_atoms {V : Type} (values : List V) (t : TransTable) (agix : List Nat)
    (nv : List V) : Except Err (List V) :=
  TopologyAttr.set_atoms values t agix nv

/-- `ResidueAttr` does not override `set_segments`: inherited base default. -/
def ResidueAttr.set_segments {V : Type} (values : List V) (t : TransTable) (sgix : List Nat)
    (nv : List V) : Except Err (List V) :=
  TopologyAttr.set_segments values t sgix nv

/-- The resolution loop of `Resids.set_atoms`: `rix` is the zero-initialised
int array of length `len(ag)`; for each input resid the first matching residue
index is written to `rix[i]`.  A failed `np.where(...)[0][0]` lookup and an
out-of-range `rix[i]` store both raise `IndexError` inside the `try` block,
which the code converts to `NoDataError`. -/
def Resids.resolveLoop (values : List Int) : List Int → List Nat → Nat → Except Err (List Nat)
  | [], rix, _ => .ok rix
  | item :: rest, rix, i =>
    match firstMatch values item with
    | some j =>
      if i < rix.length then Resids.resolveLoop values rest (rix.set i j) (i + 1)
      else .error .noData
    | none => .error .noData

/-- `Resids.set_atoms`: resolve each input resid to an existing residue index,
then delegate the whole batch to the Translation Table in a single
`move_atom` call.  On a failed resolution the `NoDataError` is raised before
`move_atom` runs, so the topology structure is untouched. -/
def Resids.set_atoms (values : List Int) (t : TransTable) (agix : List Nat) (resids : List Int) :
    Except Err TransTable :=
  match Resids.resolveLoop values resids (List.replicate agix.length 0) 0 with
  | .ok rix => .ok (t.move_atom agix rix)
  | .error e => .error e

/-! ### SegmentAttr family -/

/-- `SegmentAttr.get_atoms`: one segment index per atom via `a2s`, then index. -/
def SegmentAttr.get_atoms {V : Type} (values : List V) (t : TransTable) (agix : List Nat) :
    Except Err (List V) :=
  npGet values (t.a2s agix)

/-- `SegmentAttr.get_residues`: one segment index per residue via `r2s`, then index. -/
def SegmentAttr.get_residues {V : Type} (values : List V) (t : TransTable) (rgix : List Nat) :
    Except Err (List V) :=
  npGet values (t.r2s rgix)

/-- `SegmentAttr.get_segments`: direct index at the native level. -/
def SegmentAttr.get_segments {V : Type} (values : List V) (t : TransTable) (sgix : List Nat) :
    Except Err (List V) :=
  npGet values sgix

/-- `SegmentAttr.set_segments`: direct fancy assignment at the native level. -/
def SegmentAttr.set_segments {V : Type} (values : List V) (t : TransTable) (sgix : List Nat)
    (nv : List V) : Except Err (List V) :=
  npSet values sgix nv

/-- `SegmentAttr` does not override `set_atoms`: inherited base default. -/
def SegmentAttr.set_atoms {V : Type} (values : List V) (t : TransTable) (agix : List Nat)
    (nv : List V) : Except Err (List V) :=
  TopologyAttr.set_atoms values t agix nv

/-- `SegmentAttr` does not override `set_residues`: inherited base default. -/
def SegmentAttr.set_residues {V : Type} (values : List V) (t : TransTable) (rgix : List Nat)
    (nv : List V) : Except Err (List V) :=
  TopologyAttr.set_residues values t rgix nv

/-! ### Connectivity family (Bonds / Angles / Dihedrals / Impropers) -/

/-- The orientation step of `_bondDict`: `if b[0] < b[-1]: b = b[::-1]`.
Stored tuples have length at least two per the constructor docstring; on the
empty list both lookups default so the tuple is left unchanged. -/
def Bonds.canonical (b : List Nat) : List Nat :=
  if b.headD 0 < b.getLastD 0 then b.reverse else b

/-- A Python `defaultdict(list)` keyed by atom index: insertion-ordered key
list plus the per-key value list. -/
structure PyDict where
  keys : List Nat
  vals : Nat → List (List Nat)

/-- The empty `defaultdict(list)`. -/
def PyDict.empty : PyDict :=
  ⟨[], fun _ => []⟩

/-- `bd[a].append(c)`: on first access of key `a` the defaultdict creates the
key (appended at the end of the key order); the tuple `c` is appended to the
value list of `a`. -/
def PyDict.append1 (d : PyDict) (a : Nat) (c : List Nat) : PyDict :=
  ⟨if a ∈ d.keys then d.keys else d.keys ++ [a],
   fun x => if x = a then d.vals x ++ [c] else d.vals x⟩

/-- `for a in l: bd[a].append(c)`. -/
def PyDict.appendAll (d : PyDict) (l : List Nat) (c : List Nat) : PyDict :=
  l.foldl (fun d a => PyDict.append1 d a c) d

/-- The inner loop of `_bondDict`: register one already-canonicalised tuple
under every atom index occurring in it. -/
def Bonds.register (d : PyDict) (b : List Nat) : PyDict :=
  PyDict.appendAll d b b

/-- `Bonds._bondDict`: the lazily built mapping of atoms to tuples; each stored
tuple is canonicalised and then registered under each of its atom indices. -/
def Bonds.bondDict (values : List (List Nat)) : PyDict :=
  values.foldl (fun d b => Bonds.register d (Bonds.canonical b)) PyDict.empty

/-- `Bonds.__len__`: the number of keys of `_bondDict`. -/
def Bonds.len (values : List (List Nat)) : Nat :=
  (Bonds.bondDict values).keys.length

/-- Indexing a Python list by a numpy integer index array raises `TypeError`
in CPython (only scalar indices convert).  `Bonds.__init__` stores `values` as
a plain list of tuples, so the `self.values[aix]` step of the inherited
`AtomAttr` readers hits exactly this failure. -/
def pyListIndex (values : List (List Nat)) (aix : List Nat) : Except Err (List (List Nat)) :=
  .error .typeError

/-- `Bonds` does not override `get_residues`: the method resolves to
`AtomAttr.get_residues`, whose body translates the residue group to a flat
member-atom index array and evaluates `self.values[aix]` on the tuple list. -/
def Bonds.get_residues (values : List (List Nat)) (t : TransTable) (rgix : List Nat) :
    Except Err (List (List Nat)) :=
  pyListIndex values (t.r2a_1d rgix)

/-- `Bonds` does not override `get_segments`: the method resolves to
`AtomAttr.get_segments`, with the same tuple-list indexing step. -/
def Bonds.get_segments (values : List (List Nat)) (t : TransTable) (sgix : List Nat) :
    Except Err (List (List Nat)) :=
  pyListIndex values (t.s2a_1d sgix)

/-- `Bonds` does not override `set_residues`: inherited base default. -/
def Bonds.set_residues (values : List (List Nat)) (t : TransTable) (rgix : List Nat)
    (nv : List (List Nat)) : Except Err (List (List Nat)) :=
  AtomAttr.set_residues values t rgix nv

/-- `Bonds` does not override `set_segments`: inherited base default. -/
def Bonds.set_segments (values : List (List Nat)) (t : TransTable) (sgix : List Nat)
    (nv : List (List Nat)) : Except Err (List (List Nat)) :=
  AtomAttr.set_segments values t sgix nv

/-! ### Helper lemmas about the indexing primitives -/

theorem take_set_eq_take {α : Type} (l : List α) (i : Nat) (a : α) :
    (l.set i a).take i = l.take i := by
  apply List.ext_getElem?
  intro j
  rw [List.getElem?_take, List.getElem?_take]
  by_cases hj : j < i
  · rw [if_pos hj, if_pos hj, List.getElem?_set_ne (by omega)]
  · rw [if_neg hj, if_neg hj]

theorem npGet_ok {V : Type} (values : List V) (d : V) :
    ∀ ix : List Nat, (∀ a ∈ ix, a < values.length) →
      npGet values ix = .ok (ix.map (fun a => values.getD a d)) := by
  intro ix
  induction ix with
  | nil => intro _; rfl
  | cons i rest ih =>
    intro h
    have hi : i < values.length := h i (List.mem_cons_self i rest)
    have hrest : ∀ a ∈ rest, a < values.length := fun a ha => h a (List.mem_cons_of_mem _ ha)
    have hv : values.get? i = some (values.getD i d) := by
      rw [List.get?_eq_getElem?, List.getD_eq_getElem?_getD, List.getElem?_eq_getElem hi]
      rfl
    simp only [npGet, hv, ih hrest, List.map_cons]

theorem npSetRaw_length {V : Type} (ps : List (Nat × V)) :
    ∀ values : List V, (npSetRaw values ps).length = values.length := by
  induction ps with
  | nil => intro values; rfl
  | cons p ps ih =>
    intro values
    show (npSetRaw (values.set p.1 p.2) ps).length = _
    rw [ih, List.length_set]

theorem npSetRaw_getElem?_of_not_mem {V : Type} (ps : List (Nat × V)) :
    ∀ (values : List V) (i : Nat), i ∉ ps.map Prod.fst →
      (npSetRaw values ps)[i]? = values[i]? := by
  induction ps with
  | nil => intro values i _; rfl
  | cons p ps ih =>
    intro values i hi
    rw [List.map_cons, List.mem_cons] at hi
    push_neg at hi
    show (npSetRaw (values.set p.1 p.2) ps)[i]? = _
    rw [ih _ _ hi.2, List.getElem?_set_ne (fun c => hi.1 c.symm)]

theorem npGet_npSetRaw_zip {V : Type} :
    ∀ (ix : List Nat) (nv : List V) (values : List V), ix.Nodup →
      ix.length = nv.length → (∀ i ∈ ix, i < values.length) →
      npGet (npSetRaw values (ix.zip nv)) ix = .ok nv := by
  intro ix
  induction ix with
  | nil =>
    intro nv values _ hlen _
    cases nv with
    | nil => rfl
    | cons v nvrest => simp at hlen
  | cons i rest ih =>
    intro nv values hnd hlen hrange
    cases nv with
    | nil => simp at hlen
    | cons v nvrest =>
      rw [List.zip_cons_cons]
      show npGet (npSetRaw (values.set i v) (rest.zip nvrest)) (i :: rest) = _
      have hi : i < values.length := hrange i (List.mem_cons_self i rest)
      have hlen2 : rest.length = nvrest.length := by
        simpa using hlen
      have hnotmem : i ∉ (rest.zip nvrest).map Prod.fst := by
        rw [List.map_fst_zip rest nvrest (le_of_eq hlen2)]
        exact (List.nodup_cons.mp hnd).1
      have hget : (npSetRaw (values.set i v) (rest.zip nvrest)).get? i = some v := by
        rw [List.get?_eq_getElem?, npSetRaw_getElem?_of_not_mem _ _ _ hnotmem,
          List.getElem?_set_self hi]
      have hrec : npGet (npSetRaw (values.set i v) (rest.zip nvrest)) rest = .ok nvrest := by
        apply ih nvrest (values.set i v) (List.nodup_cons.mp hnd).2 hlen2
        intro a ha
        rw [List.length_set]
        exact hrange a (List.mem_cons_of_mem _ ha)
      simp only [npGet, hget, hrec]

/-! ### Claim theorems: dispatch and defaults -/

/-- C8: every read handler that is not overridden anywhere in the hierarchy
resolves to the base default and fails with NoData, every such write handler
fails with NotImplemented, and the two failure kinds are structurally
distinct.  The unoverridden slots are: all six base defaults, and the
inherited write slots of each family (`AtomAttr`/`Bonds`: residue and segment
writes; `ResidueAttr`: atom and segment writes; `SegmentAttr`: atom and
residue writes). -/
theorem default_handlers_noData_notImplemented (V : Type) (values : List V)
    (t : TransTable) (gix : List Nat) (nv : List V) (bvalues bnv : List (List Nat)) :
    TopologyAttr.get_atoms values t gix = .error .noData
    ∧ TopologyAttr.get_residues values t gix = .error .noData
    ∧ TopologyAttr.get_segments values t gix = .error .noData
    ∧ TopologyAttr.set_atoms values t gix nv = .error .notImplemented
    ∧ TopologyAttr.set_residues values t gix nv = .error .notImplemented
    ∧ TopologyAttr.set_segments values t gix nv = .error .notImplemented
    ∧ AtomAttr.set_residues values t gix nv = .error .notImplemented
    ∧ AtomAttr.set_segments values t gix nv = .error .notImplemented
    ∧ ResidueAttr.set_atoms values t gix nv = .error .notImplemented
    ∧ ResidueAttr.set_segments values t gix nv = .error .notImplemented
    ∧ SegmentAttr.set_atoms values t gix nv = .error .notImplemented
    ∧ SegmentAttr.set_residues values t gix nv = .error .notImplemented
    ∧ Bonds.set_residues bvalues t gix bnv = .error .notImplemented
    ∧ Bonds.set_segments bvalues t gix bnv = .error .notImplemented
    ∧ Err.noData ≠ Err.notImplemented :=
  ⟨rfl, rfl, rfl, rfl, rfl, rfl, rfl, rfl, rfl, rfl, rfl, rfl, rfl, rfl, by decide⟩

/-- C10: a group whose level tag is none of atom, residue, segment makes both
dispatch entry points fall off the end of the if/elif chain: they return
`none` (Python `None`), run no handler, and touch no state. -/
theorem getitem_unknown_level_none (α σ β : Type) (gA gR gS : LevelGroup → α)
    (sA sR sS : LevelGroup → σ → β) (g : LevelGroup) (v : σ)
    (h1 : g.level ≠ "atom") (h2 : g.level ≠ "residue") (h3 : g.level ≠ "segment") :
    TopologyAttr.getitem gA gR gS g = none ∧ TopologyAttr.setitem sA sR sS g v = none := by
  unfold TopologyAttr.getitem TopologyAttr.setitem
  rw [if_neg h1, if_neg h2, if_neg h3, if_neg h1, if_neg h2, if_neg h3]
  exact ⟨rfl, rfl⟩

/-- Witness for `getitem_unknown_level_none` at the concrete level tag
spam. -/
theorem getitem_unknown_level_none_witness :
    ((LevelGroup.mk "spam" []).level ≠ "atom"
      ∧ (LevelGroup.mk "spam" []).level ≠ "residue"
      ∧ (LevelGroup.mk "spam" []).level ≠ "segment")
    ∧ TopologyAttr.getitem (fun _ => (0 : Nat)) (fun _ => 0) (fun _ => 0)
        (LevelGroup.mk "spam" []) = none
    ∧ TopologyAttr.setitem (fun _ (_ : Nat) => (0 : Nat)) (fun _ _ => 0) (fun _ _ => 0)
        (LevelGroup.mk "spam" []) 0 = none :=
  ⟨⟨by decide, by decide, by decide⟩,
    getitem_unknown_level_none Nat Nat Nat (fun _ => 0) (fun _ => 0) (fun _ => 0)
      (fun _ _ => 0) (fun _ _ => 0) (fun _ _ => 0) (LevelGroup.mk "spam" []) 0
      (by decide) (by decide) (by decide)⟩

/-! ### Claim theorems: connectivity read at coarser levels (C1) -/

/-- C1 counterexample: a concrete Bonds instance read at residue level and at
segment level does not fail with NoData (the resolved method is the inherited
`AtomAttr` flatten reader, which fails with TypeError on the tuple list). -/
theorem bonds_get_residues_cex :
    Bonds.get_residues [[0, 1]] ⟨[0, 0], [0]⟩ [0] ≠ .error .noData
    ∧ Bonds.get_segments [[0, 1]] ⟨[0, 0], [0]⟩ [0] ≠ .error .noData := by
  exact ⟨by decide, by decide⟩

/-- C1 (amended): `Bonds` (hence Angles/Dihedrals/Impropers, which subclass
it) inherits `AtomAttr.get_residues` and `AtomAttr.get_segments` instead of
falling through to the NoData defaults; reading connectivity at residue or
segment level therefore fails with TypeError when `self.values[aix]` indexes
the tuple list with the translated index array, never with NoData. -/
theorem bonds_get_residues_typeError (values : List (List Nat)) (t : TransTable)
    (rgix sgix : List Nat) :
    Bonds.get_residues values t rgix = .error .typeError
    ∧ Bonds.get_segments values t sgix = .error .typeError :=
  ⟨rfl, rfl⟩

/-! ### Claim theorems: canonical orientation (C4) -/

/-- C4: the code contradicts its own comment.  The comment above the
orientation step says the first index should be less than the last, keeping
(0, 1) rather than (1, 0); the code reverses exactly when the first index is
less than the last, so the stored tuple (0, 1) is registered as (1, 0), whose
first index is greater than its last. -/
theorem bonds_canonical_code_bug :
    Bonds.canonical [0, 1] = [1, 0]
    ∧ (Bonds.bondDict [[0, 1]]).vals 0 = [[1, 0]]
    ∧ (Bonds.bondDict [[0, 1]]).vals 1 = [[1, 0]]
    ∧ ¬ ([1, 0] : List Nat).headD 0 < ([1, 0] : List Nat).getLastD 0 := by
  exact ⟨by decide, by decide, by decide, by decide⟩

/-! ### Claim theorems: atom-level round trip (C7) -/

/-- C7 counterexample: the atom group with the duplicated (valid) atom index 0
breaks the write-then-read round trip: writing [1, 2] through atom indices
[0, 0] stores 2 at atom 0, and reading back returns [2, 2], not [1, 2]. -/
theorem atomattr_roundtrip_cex :
    AtomAttr.set_atoms ([0, 0] : List Int) ⟨[0, 0], [0]⟩ [0, 0] [1, 2] = .ok [2, 0]
    ∧ AtomAttr.get_atoms ([2, 0] : List Int) ⟨[0, 0], [0]⟩ [0, 0] = .ok [2, 2]
    ∧ (Except.ok ([2, 2] : List Int) : Except Err (List Int)) ≠ .ok [1, 2] := by
  exact ⟨by decide, by decide, by decide⟩

/-- C7 (amended): for an atom-level scalar attribute and a group at the native
atom level whose indices are valid and pairwise distinct, writing a value
sequence of matching length and then reading returns that sequence. -/
theorem atomattr_roundtrip_nodup (V : Type) (values : List V) (t : TransTable)
    (agix : List Nat) (nv : List V) (hnd : agix.Nodup) (hlen : agix.length = nv.length)
    (hrange : ∀ i ∈ agix, i < values.length) :
    ∃ values2, AtomAttr.set_atoms values t agix nv = .ok values2
      ∧ AtomAttr.get_atoms values2 t agix = .ok nv := by
  refine ⟨npSetRaw values (agix.zip nv), ?_, ?_⟩
  · unfold AtomAttr.set_atoms npSet
    rw [if_pos hlen, if_pos hrange]
  · exact npGet_npSetRaw_zip agix nv values hnd hlen hrange

/-- Witness for `atomattr_roundtrip_nodup` on masses-like data: values
[5, 6, 7], atom group [2, 0], new values [9, 8]. -/
theorem atomattr_roundtrip_nodup_witness :
    (([2, 0] : List Nat).Nodup ∧ ([2, 0] : List Nat).length = ([9, 8] : List Int).length
      ∧ ∀ i ∈ ([2, 0] : List Nat), i < ([5, 6, 7] : List Int).length)
    ∧ ∃ values2, AtomAttr.set_atoms ([5, 6, 7] : List Int) ⟨[0, 0, 0], [0]⟩ [2, 0] [9, 8]
        = .ok values2
      ∧ AtomAttr.get_atoms values2 ⟨[0, 0, 0], [0]⟩ [2, 0] = .ok [9, 8] :=
  ⟨⟨by decide, by decide, by decide⟩,
    atomattr_roundtrip_nodup Int [5, 6, 7] ⟨[0, 0, 0], [0]⟩ [2, 0] [9, 8]
      (by decide) (by decide) (by decide)⟩

/-! ### Claim theorems: Resids atom reassignment (C2) -/

theorem firstMatch_spec (values : List Int) (item : Int) :
    ∀ j : Nat, firstMatch values item = some j →
      values.get? j = some item ∧ ∀ k < j, values.get? k ≠ some item := by
  induction values with
  | nil => intro j h; simp [firstMatch] at h
  | cons v vs ih =>
    intro j h
    by_cases hv : v = item
    · rw [firstMatch, if_pos hv] at h
      cases h
      refine ⟨by simp [hv], ?_⟩
      intro k hk
      omega
    · rw [firstMatch, if_neg hv] at h
      cases hfm : firstMatch vs item with
      | none => rw [hfm] at h; simp at h
      | some j0 =>
        rw [hfm] at h
        simp at h
        obtain ⟨h1, h2⟩ := ih j0 hfm
        subst h
        refine ⟨by simpa using h1, ?_⟩
        intro k hk
        match k with
        | 0 =>
          intro hc
          exact hv (by simpa using hc)
        | k + 1 =>
          have := h2 k (by omega)
          simpa using this

theorem resolveLoop_ok (values : List Int) :
    ∀ (resids : List Int) (rix : List Nat) (i : Nat),
      (∀ item ∈ resids, (firstMatch values item).isSome) →
      i + resids.length = rix.length →
      Resids.resolveLoop values resids rix i =
        .ok (rix.take i ++ resids.map (fun item => (firstMatch values item).getD 0)) := by
  intro resids
  induction resids with
  | nil =>
    intro rix i _ hlen
    simp only [List.length_nil, Nat.add_zero] at hlen
    rw [Resids.resolveLoop, hlen, List.take_length, List.map_nil, List.append_nil]
  | cons item rest ih =>
    intro rix i hall hlen
    have hs : (firstMatch values item).isSome := hall item (List.mem_cons_self item rest)
    obtain ⟨j, hj⟩ := Option.isSome_iff_exists.mp hs
    have hi : i < rix.length := by
      rw [List.length_cons] at hlen
      omega
    simp only [Resids.resolveLoop, hj]
    rw [if_pos hi,
      ih (rix.set i j) (i + 1) (fun it hit => hall it (List.mem_cons_of_mem _ hit))
        (by rw [List.length_set, List.length_cons] at *; omega)]
    congr 1
    rw [List.take_succ, take_set_eq_take, List.getElem?_set_self hi]
    simp [hj, List.append_assoc]

theorem resolveLoop_noData (values : List Int) :
    ∀ (resids : List Int) (rix : List Nat) (i : Nat),
      (∃ item ∈ resids, firstMatch values item = none) →
      i + resids.length ≤ rix.length →
      Resids.resolveLoop values resids rix i = .error .noData := by
  intro resids
  induction resids with
  | nil =>
    intro rix i h _
    obtain ⟨item, hmem, _⟩ := h
    simp at hmem
  | cons item rest ih =>
    intro rix i h hlen
    cases hfm : firstMatch values item with
    | none => rw [Resids.resolveLoop, hfm]
    | some j =>
      have hi : i < rix.length := by
        rw [List.length_cons] at hlen
        omega
      simp only [Resids.resolveLoop, hfm]
      rw [if_pos hi]
      apply ih
      · obtain ⟨it, hmem, hnone⟩ := h
        rcases List.mem_cons.mp hmem with rfl | hmem2
        · rw [hfm] at hnone
          cases hnone
        · exact ⟨it, hmem2, hnone⟩
      · rw [List.length_set, List.length_cons] at *
        omega

/-- C2: `Resids.set_atoms` resolves each input resid to the lowest-indexed
residue whose stored resid equals it; when every input resid matches it makes
one `move_atom` call with the resolved residue indices; when some input resid
matches no residue it fails with NoData before any `move_atom` call, leaving
the topology structure untouched. -/
theorem resids_set_atoms_spec (values : List Int) (t : TransTable) (agix : List Nat)
    (resids : List Int) (hlen : resids.length = agix.length) :
    ((∀ item ∈ resids, (firstMatch values item).isSome) →
      Resids.set_atoms values t agix resids =
        .ok (t.move_atom agix (resids.map (fun item => (firstMatch values item).getD 0))))
    ∧ ((∃ item ∈ resids, firstMatch values item = none) →
      Resids.set_atoms values t agix resids = .error .noData)
    ∧ (∀ item j, firstMatch values item = some j →
      values.get? j = some item ∧ ∀ k < j, values.get? k ≠ some item) := by
  refine ⟨?_, ?_, fun item j h => firstMatch_spec values item j h⟩
  · intro hall
    unfold Resids.set_atoms
    rw [resolveLoop_ok values resids (List.replicate agix.length 0) 0 hall
      (by rw [List.length_replicate]; omega)]
    rfl
  · intro hex
    unfold Resids.set_atoms
    rw [resolveLoop_noData values resids (List.replicate agix.length 0) 0 hex
      (by rw [List.length_replicate]; omega)]

/-- Witness for `resids_set_atoms_spec`: residues with resids [10, 20, 30] and
the atom group [0, 1] reassigned with resid values [20, 20]. -/
theorem resids_set_atoms_spec_witness :
    (([20, 20] : List Int).length = ([0, 1] : List Nat).length)
    ∧ (((∀ item ∈ ([20, 20] : List Int), (firstMatch [10, 20, 30] item).isSome) →
        Resids.set_atoms [10, 20, 30] ⟨[0, 0, 1, 1], [0, 0]⟩ [0, 1] [20, 20] =
          .ok (TransTable.move_atom ⟨[0, 0, 1, 1], [0, 0]⟩ [0, 1]
            (([20, 20] : List Int).map (fun item => (firstMatch [10, 20, 30] item).getD 0))))
      ∧ ((∃ item ∈ ([20, 20] : List Int), firstMatch [10, 20, 30] item = none) →
        Resids.set_atoms [10, 20, 30] ⟨[0, 0, 1, 1], [0, 0]⟩ [0, 1] [20, 20] = .error .noData)
      ∧ (∀ item j, firstMatch [10, 20, 30] item = some j →
        ([10, 20, 30] : List Int).get? j = some item
          ∧ ∀ k < j, ([10, 20, 30] : List Int).get? k ≠ some item)) :=
  ⟨by decide,
    resids_set_atoms_spec [10, 20, 30] ⟨[0, 0, 1, 1], [0, 0]⟩ [0, 1] [20, 20] (by decide)⟩

/-! ### Claim theorems: mass and charge aggregation (C3) -/

theorem resMembers_lt (t : TransTable) (r : Nat) :
    ∀ a ∈ t.resMembers r, a < t.AR.length := by
  intro a ha
  rw [TransTable.resMembers, List.mem_filter, List.mem_range] at ha
  exact ha.1

theorem segMembers_lt (t : TransTable) (s : Nat) :
    ∀ a ∈ t.segMembers s, a < t.AR.length := by
  intro a ha
  rw [TransTable.segMembers, List.mem_filter, List.mem_range] at ha
  exact ha.1

theorem sumRows_ok (values : List Rat) :
    ∀ rows : List (List Nat), (∀ row ∈ rows, ∀ a ∈ row, a < values.length) →
      sumRows values rows =
        .ok (rows.map (fun row => (row.map (fun a => values.getD a 0)).sum)) := by
  intro rows
  induction rows with
  | nil => intro _; rfl
  | cons row rest ih =>
    intro h
    rw [sumRows, npGet_ok values 0 row (h row (List.mem_cons_self row rest)),
      ih (fun r hr => h r (List.mem_cons_of_mem _ hr))]
    rfl

/-- C3: for Masses and Charges, reading at residue level returns one scalar
per residue of the group, the sum of the per-atom values over the atoms of
that residue, in the order of the group indices (and analogously at segment
level).  The result is the image of the group index list under the per-entity
sum, so its length is the residue (segment) count of the group. -/
theorem masses_charges_aggregate (values : List Rat) (t : TransTable) (rgix sgix : List Nat)
    (h : t.AR.length ≤ values.length) :
    Masses.get_residues values t rgix =
      .ok (rgix.map (fun r => ((t.resMembers r).map (fun a => values.getD a 0)).sum))
    ∧ Masses.get_segments values t sgix =
      .ok (sgix.map (fun s => ((t.segMembers s).map (fun a => values.getD a 0)).sum))
    ∧ Charges.get_residues values t rgix =
      .ok (rgix.map (fun r => ((t.resMembers r).map (fun a => values.getD a 0)).sum))
    ∧ Charges.get_segments values t sgix =
      .ok (sgix.map (fun s => ((t.segMembers s).map (fun a => values.getD a 0)).sum)) := by
  have hres : ∀ row ∈ t.r2a_2d rgix, ∀ a ∈ row, a < values.length := by
    intro row hrow a ha
    rw [TransTable.r2a_2d, List.mem_map] at hrow
    obtain ⟨r, _, rfl⟩ := hrow
    exact lt_of_lt_of_le (resMembers_lt t r a ha) h
  have hseg : ∀ row ∈ t.s2a_2d sgix, ∀ a ∈ row, a < values.length := by
    intro row hrow a ha
    rw [TransTable.s2a_2d, List.mem_map] at hrow
    obtain ⟨s, _, rfl⟩ := hrow
    exact lt_of_lt_of_le (segMembers_lt t s a ha) h
  refine ⟨?_, ?_, ?_, ?_⟩
  · rw [Masses.get_residues, sumRows_ok values _ hres, TransTable.r2a_2d, List.map_map]
    rfl
  · rw [Masses.get_segments, sumRows_ok values _ hseg, TransTable.s2a_2d, List.map_map]
    rfl
  · rw [Charges.get_residues, sumRows_ok values _ hres, TransTable.r2a_2d, List.map_map]
    rfl
  · rw [Charges.get_segments, sumRows_ok values _ hseg, TransTable.s2a_2d, List.map_map]
    rfl

/-- Witness for `masses_charges_aggregate`: the spec scenario with four atoms
of masses [1, 1, 16, 1], atom-to-residue mapping [0, 0, 0, 1], residue group
[0, 1]; the aggregated values evaluate to [18, 1]. -/
theorem masses_charges_aggregate_witness :
    ((⟨[0, 0, 0, 1], [0, 0]⟩ : TransTable).AR.length ≤ ([1, 1, 16, 1] : List Rat).length)
    ∧ Masses.get_residues [1, 1, 16, 1] ⟨[0, 0, 0, 1], [0, 0]⟩ [0, 1] =
      .ok (([0, 1] : List Nat).map (fun r =>
        (((⟨[0, 0, 0, 1], [0, 0]⟩ : TransTable).resMembers r).map
          (fun a => ([1, 1, 16, 1] : List Rat).getD a 0)).sum))
    ∧ Masses.get_residues [1, 1, 16, 1] ⟨[0, 0, 0, 1], [0, 0]⟩ [0, 1] = .ok [18, 1] := by
  have hmain := masses_charges_aggregate [1, 1, 16, 1] ⟨[0, 0, 0, 1], [0, 0]⟩ [0, 1] [0]
    (by decide)
  refine ⟨by decide, hmain.1, hmain.1.trans ?_⟩
  have h0 : (⟨[0, 0, 0, 1], [0, 0]⟩ : TransTable).resMembers 0 = [0, 1, 2] := by decide
  have h1 : (⟨[0, 0, 0, 1], [0, 0]⟩ : TransTable).resMembers 1 = [3] := by decide
  simp only [List.map_cons, List.map_nil, h0, h1, List.sum_cons, List.sum_nil]
  norm_num [List.getD]

/-! ### Claim theorems: non-aggregating flatten at segment level (C9) -/

/-- C9: `Atomnames` read at segment level returns one value per contributing
member atom, flattened through the Translation Table: the result length is the
total member-atom count across the segments of the group, not the segment
count. -/
theorem atomnames_get_segments_flatten (values : List String) (t : TransTable)
    (sgix : List Nat) (h : t.AR.length ≤ values.length) :
    ∃ out, Atomnames.get_segments values t sgix = .ok out
      ∧ out.length = (sgix.map (fun s => (t.segMembers s).length)).sum := by
  refine ⟨(t.s2a_1d sgix).map (fun a => values.getD a ""), ?_, ?_⟩
  · unfold Atomnames.get_segments AtomAttr.get_segments
    apply npGet_ok
    intro a ha
    rw [TransTable.s2a_1d, List.mem_flatten] at ha
    obtain ⟨row, hrow, ha2⟩ := ha
    rw [TransTable.s2a_2d, List.mem_map] at hrow
    obtain ⟨s, _, rfl⟩ := hrow
    exact lt_of_lt_of_le (segMembers_lt t s a ha2) h
  · rw [List.length_map, TransTable.s2a_1d, TransTable.s2a_2d, List.length_flatten,
      List.map_map]
    rfl

/-- Witness for `atomnames_get_segments_flatten`: three atoms across two
residues of one segment; the flattened read through segment group [0] has
length three, not one. -/
theorem atomnames_get_segments_flatten_witness :
    ((⟨[0, 0, 1], [0, 0]⟩ : TransTable).AR.length ≤ (["N", "CA", "C"] : List String).length)
    ∧ ∃ out, Atomnames.get_segments ["N", "CA", "C"] ⟨[0, 0, 1], [0, 0]⟩ [0] = .ok out
      ∧ out.length = (([0] : List Nat).map
          (fun s => ((⟨[0, 0, 1], [0, 0]⟩ : TransTable).segMembers s).length)).sum :=
  ⟨by decide,
    atomnames_get_segments_flatten ["N", "CA", "C"] ⟨[0, 0, 1], [0, 0]⟩ [0] (by decide)⟩

/-! ### Claim theorems: the adjacency map (C5, C6) -/

theorem canonical_mem (u : List Nat) (a : Nat) : a ∈ Bonds.canonical u ↔ a ∈ u := by
  rw [Bonds.canonical]
  split
  · exact List.mem_reverse
  · exact Iff.rfl

theorem canonical_not_lt (u : List Nat) :
    ¬ (Bonds.canonical u).headD 0 < (Bonds.canonical u).getLastD 0 := by
  rw [Bonds.canonical]
  split
  · rename_i h
    have e1 : (u.reverse).headD 0 = u.getLastD 0 := by
      rw [List.headD_eq_head?_getD, List.head?_reverse, ← List.getLastD_eq_getLast?]
    have e2 : (u.reverse).getLastD 0 = u.headD 0 := by
      rw [List.getLastD_eq_getLast?, List.getLast?_reverse, ← List.headD_eq_head?_getD]
    rw [e1, e2]
    omega
  · rename_i h
    exact h

theorem append1_vals_self (d : PyDict) (a : Nat) (c : List Nat) :
    (d.append1 a c).vals a = d.vals a ++ [c] := by
  simp [PyDict.append1]

theorem append1_vals_ne (d : PyDict) (a a0 : Nat) (c : List Nat) (h : a ≠ a0) :
    (d.append1 a0 c).vals a = d.vals a := by
  simp [PyDict.append1, h]

theorem append1_keys_mem (d : PyDict) (a a0 : Nat) (c : List Nat) :
    a ∈ (d.append1 a0 c).keys ↔ a ∈ d.keys ∨ a = a0 := by
  simp only [PyDict.append1]
  by_cases h0 : a0 ∈ d.keys
  · rw [if_pos h0]
    constructor
    · exact Or.inl
    · rintro (h | rfl)
      · exact h
      · exact h0
  · rw [if_neg h0, List.mem_append, List.mem_singleton]

theorem appendAll_vals_mem (c : List Nat) :
    ∀ (l : List Nat) (d : PyDict) (a : Nat) (x : List Nat),
      x ∈ (d.appendAll l c).vals a ↔ x ∈ d.vals a ∨ (a ∈ l ∧ x = c) := by
  intro l
  induction l with
  | nil => intro d a x; simp [PyDict.appendAll]
  | cons a0 rest ih =>
    intro d a x
    show x ∈ ((d.append1 a0 c).appendAll rest c).vals a ↔ _
    rw [ih]
    by_cases ha : a = a0
    · subst ha
      rw [append1_vals_self, List.mem_append, List.mem_singleton, List.mem_cons]
      tauto
    · rw [append1_vals_ne d a a0 c ha, List.mem_cons]
      tauto

theorem appendAll_keys_mem (c : List Nat) :
    ∀ (l : List Nat) (d : PyDict) (a : Nat),
      a ∈ (d.appendAll l c).keys ↔ a ∈ d.keys ∨ a ∈ l := by
  intro l
  induction l with
  | nil => intro d a; simp [PyDict.appendAll]
  | cons a0 rest ih =>
    intro d a
    show a ∈ ((d.append1 a0 c).appendAll rest c).keys ↔ _
    rw [ih, append1_keys_mem, List.mem_cons]
    tauto

theorem appendAll_keys_nodup (c : List Nat) :
    ∀ (l : List Nat) (d : PyDict), d.keys.Nodup → (d.appendAll l c).keys.Nodup := by
  intro l
  induction l with
  | nil => intro d hd; exact hd
  | cons a0 rest ih =>
    intro d hd
    show ((d.append1 a0 c).appendAll rest c).keys.Nodup
    apply ih
    by_cases h0 : a0 ∈ d.keys
    · simpa only [PyDict.append1, if_pos h0] using hd
    · simp only [PyDict.append1, if_neg h0]
      rw [List.nodup_append]
      exact ⟨hd, List.nodup_singleton a0, List.disjoint_singleton.mpr h0⟩

theorem bondDict_vals_mem (values : List (List Nat)) (a : Nat) (x : List Nat) :
    x ∈ (Bonds.bondDict values).vals a ↔ ∃ u ∈ values, Bonds.canonical u = x ∧ a ∈ x := by
  suffices h : ∀ (vs : List (List Nat)) (d : PyDict),
      x ∈ (vs.foldl (fun d b => Bonds.register d (Bonds.canonical b)) d).vals a ↔
        x ∈ d.vals a ∨ ∃ u ∈ vs, Bonds.canonical u = x ∧ a ∈ x by
    have := h values PyDict.empty
    rw [Bonds.bondDict]
    simpa [PyDict.empty] using this
  intro vs
  induction vs with
  | nil => intro d; simp
  | cons u rest ih =>
    intro d
    show x ∈ ((rest.foldl _ (Bonds.register d (Bonds.canonical u)))).vals a ↔ _
    rw [ih (Bonds.register d (Bonds.canonical u)), Bonds.register, appendAll_vals_mem]
    constructor
    · rintro ((h | ⟨hmem, rfl⟩) | ⟨u2, hu2, hc, hax⟩)
      · exact Or.inl h
      · exact Or.inr ⟨u, List.mem_cons_self u rest, rfl, hmem⟩
      · exact Or.inr ⟨u2, List.mem_cons_of_mem _ hu2, hc, hax⟩
    · rintro (h | ⟨u2, hu2, hc, hax⟩)
      · exact Or.inl (Or.inl h)
      · rcases List.mem_cons.mp hu2 with rfl | h2
        · exact Or.inl (Or.inr ⟨by rw [hc]; exact hax, hc.symm⟩)
        · exact Or.inr ⟨u2, h2, hc, hax⟩

theorem bondDict_keys_mem (values : List (List Nat)) (a : Nat) :
    a ∈ (Bonds.bondDict values).keys ↔ ∃ u ∈ values, a ∈ u := by
  suffices h : ∀ (vs : List (List Nat)) (d : PyDict),
      a ∈ (vs.foldl (fun d b => Bonds.register d (Bonds.canonical b)) d).keys ↔
        a ∈ d.keys ∨ ∃ u ∈ vs, a ∈ u by
    have := h values PyDict.empty
    rw [Bonds.bondDict]
    simpa [PyDict.empty] using this
  intro vs
  induction vs with
  | nil => intro d; simp
  | cons u rest ih =>
    intro d
    show a ∈ ((rest.foldl _ (Bonds.register d (Bonds.canonical u)))).keys ↔ _
    rw [ih (Bonds.register d (Bonds.canonical u)), Bonds.register, appendAll_keys_mem,
      canonical_mem]
    constructor
    · rintro ((h | h) | ⟨u2, hu2, hau2⟩)
      · exact Or.inl h
      · exact Or.inr ⟨u, List.mem_cons_self u rest, h⟩
      · exact Or.inr ⟨u2, List.mem_cons_of_mem _ hu2, hau2⟩
    · rintro (h | ⟨u2, hu2, hau2⟩)
      · exact Or.inl (Or.inl h)
      · rcases List.mem_cons.mp hu2 with rfl | h2
        · exact Or.inl (Or.inr hau2)
        · exact Or.inr ⟨u2, h2, hau2⟩

theorem bondDict_keys_nodup (values : List (List Nat)) :
    (Bonds.bondDict values).keys.Nodup := by
  suffices h : ∀ (vs : List (List Nat)) (d : PyDict), d.keys.Nodup →
      (vs.foldl (fun d b => Bonds.register d (Bonds.canonical b)) d).keys.Nodup by
    exact h values PyDict.empty List.nodup_nil
  intro vs
  induction vs with
  | nil => intro d hd; exact hd
  | cons u rest ih =>
    intro d hd
    exact ih (Bonds.register d (Bonds.canonical u)) (appendAll_keys_nodup _ _ _ hd)

/-- C5: for every stored tuple whose first atom index is less than its last,
the built adjacency map registers the reversed tuple under every atom index of
the tuple, and never contains the tuple itself (every registered tuple has the
reverse-when-first-less-than-last canonicalisation applied, so no registered
tuple has its first index less than its last). -/
theorem bondDict_reversed_tuple (values : List (List Nat)) (b : List Nat)
    (hmem : b ∈ values) (hlt : b.headD 0 < b.getLastD 0) :
    (∀ a ∈ b, b.reverse ∈ (Bonds.bondDict values).vals a)
    ∧ ∀ a, b ∉ (Bonds.bondDict values).vals a := by
  have hcan : Bonds.canonical b = b.reverse := by rw [Bonds.canonical, if_pos hlt]
  constructor
  · intro a ha
    rw [bondDict_vals_mem]
    exact ⟨b, hmem, hcan, List.mem_reverse.mpr ha⟩
  · intro a hcontra
    rw [bondDict_vals_mem] at hcontra
    obtain ⟨u, hu, hcu, hax⟩ := hcontra
    have hnot := canonical_not_lt u
    rw [hcu] at hnot
    exact hnot hlt

/-- Witness for `bondDict_reversed_tuple`: stored tuples [(0, 1), (1, 2)]
with the ascending tuple (0, 1). -/
theorem bondDict_reversed_tuple_witness :
    (([0, 1] : List Nat) ∈ ([[0, 1], [1, 2]] : List (List Nat))
      ∧ ([0, 1] : List Nat).headD 0 < ([0, 1] : List Nat).getLastD 0)
    ∧ ((∀ a ∈ ([0, 1] : List Nat),
          ([0, 1] : List Nat).reverse ∈ (Bonds.bondDict [[0, 1], [1, 2]]).vals a)
      ∧ ∀ a, ([0, 1] : List Nat) ∉ (Bonds.bondDict [[0, 1], [1, 2]]).vals a) :=
  ⟨⟨by decide, by decide⟩,
    bondDict_reversed_tuple [[0, 1], [1, 2]] [0, 1] (by decide) (by decide)⟩

/-- C6: the length of a connectivity attribute is the key count of the built
adjacency map: the number of distinct atom indices appearing in at least one
stored tuple, not the number of stored tuples. -/
theorem bonds_len_distinct_atoms (values : List (List Nat)) :
    Bonds.len values = values.flatten.dedup.length := by
  rw [Bonds.len]
  apply List.Perm.length_eq
  rw [List.perm_ext_iff_of_nodup (bondDict_keys_nodup values) (List.nodup_dedup _)]
  intro a
  rw [List.mem_dedup, List.mem_flatten, bondDict_keys_mem]
